import Mathlib

/-!
# Verification of the mqtt-trace message persistence component

Shallow embedding of the two sink variants of the mqtt-trace repository:

* the Line Sink (`FileWriter` / `WriteMessage` in `main.go`), which appends
  one pipe-delimited text line per message to the output file, and
* the JSON Store Sink (`MessageStore` / `AddMessage` / `saveToFile`), which
  accumulates `MessageRecord`s in memory and rewrites the whole output file
  as a JSON array on every message,

together with the message handler and `loadConfig` shared by both variants.

External collaborators (the Go standard library `fmt`, `encoding/json`,
`os`, `time`, the paho MQTT client and viper) are not code of this
repository; they enter the model as oracle inputs (the current RFC3339
timestamp, the success/failure outcome of each file-system call, the result
of JSON-decoding an inbound message body) or as faithful value-level
models (`fmtV` for `fmt.Sprintf` with the `%v` verb, `recordToJson` /
`fromJsonRecord` for `encoding/json` marshalling of `MessageRecord`).
-/

namespace MqttTrace

/-- A decoded JSON value, the model of a Go `any` produced by
`encoding/json.Unmarshal` into `map[string]any`: a tagged variant of
string, number, boolean, null, array, or nested object.  Go decodes JSON
numbers into `float64`; the numeric payload values observed by this tool
(`rssi`) are integral, and no code in the repository inspects or computes
with the number, so numbers are modelled as integers. -/
inductive JVal where
  | str (s : String)
  | num (n : Int)
  | bool (b : Bool)
  | null
  | arr (xs : List JVal)
  | obj (fields : List (String × JVal))

/-- A decoded payload mapping (`map[string]any`), as an association list.
Go maps have unique keys; lookups below take the first matching entry, so
all results below hold for arbitrary association lists as well. -/
def Payload : Type := List (String × JVal)

/-- Key lookup in a payload mapping: the model of `payload[k]` / the
`v, ok := payload[k]` form on a Go map. -/
def lookupKey (m : List (String × JVal)) (k : String) : Option JVal :=
  match m with
  | [] => none
  | (k', v) :: rest => if k' = k then some v else lookupKey rest k

/-- Model of `fmt.Sprintf` with the `%v` verb applied to a decoded JSON
value (the `fmt` package is Go standard library, external to this
repository).  Exact for the scalar forms this tool observes (strings,
integral numbers, booleans, nil); composite values are rendered
recursively in Go's bracketed style (field order of a Go map print is
left as stored here — no claim depends on the rendering of composites). -/
def fmtV : JVal → String
  | .str s => s
  | .num n => toString n
  | .bool b => Bool.rec "false" "true" b
  | .null => "<nil>"
  | .arr xs =>
      "[" ++ String.intercalate " " (xs.attach.map (fun x => fmtV x.1)) ++ "]"
  | .obj fs =>
      "map[" ++
        String.intercalate " "
          (fs.attach.map (fun kv => kv.1.1 ++ ":" ++ fmtV kv.1.2)) ++ "]"
decreasing_by
  · have := List.sizeOf_lt_of_mem x.2
    simp only [JVal.arr.sizeOf_spec]
    omega
  · obtain ⟨⟨a, b⟩, hmem⟩ := kv
    have h1 := List.sizeOf_lt_of_mem hmem
    simp only [JVal.obj.sizeOf_spec, Prod.mk.sizeOf_spec] at *
    omega

/-- Model of a Go `error` value: either a leaf error or an error built by
`fmt.Errorf("<msg>: %w", cause)`, which wraps `cause` and renders as the
message followed by the cause's own rendering. -/
inductive GoError where
  | base (msg : String)
  | wrap (msg : String) (cause : GoError)

/-- The string `e.Error()` would return: a wrapped error's message followed
by the rendering of its cause (`%w` interpolates the cause's `Error()`). -/
def GoError.message : GoError → String
  | .base m => m
  | .wrap m c => m ++ c.message

/-- The cause recovered by `errors.Unwrap`: `some` for wrapped errors,
`none` for leaf errors. -/
def GoError.unwrap : GoError → Option GoError
  | .base _ => none
  | .wrap _ c => some c

/-! ## The Line Sink (`FileWriter`, `main.go`) -/

/-- `FileWriter` from `main.go`: it holds the configured output file path
(and a `sync.Mutex`, whose only content is lock state; the lock is free
between calls, so the path is the persistent state carried across calls).
The serializing effect of the mutex on concurrent schedules is modelled in
the lock section below; the functions here describe one call running
alone. -/
structure FileWriter where
  filePath : String

/-- `NewFileWriter` from `main.go`. -/
def NewFileWriter (filePath : String) : FileWriter :=
  { filePath := filePath }

/-- Outcome of the two file-system calls one `WriteMessage` performs.
`os.OpenFile` and `File.WriteString` are OS facilities external to the
repository, so each enters the model as an oracle: `none` means the call
succeeds, `some e` that it fails with underlying error `e`. -/
structure FsOutcome where
  openErr : Option GoError
  writeErr : Option GoError

/-- The line `WriteMessage` builds, transcribed from `main.go`: start from
the date (`time.Now().Format(time.RFC3339)`, modelled by the oracle input
`now`), append `|name=<name>` if the key `name` is present in the payload,
then `|rssi=<rssi>` if the key `rssi` is present, then a newline. -/
def lineFor (now : String) (payload : Payload) : String :=
  let line := now
  let line :=
    match lookupKey payload "name" with
    | some name => line ++ "|name=" ++ fmtV name
    | none => line
  let line :=
    match lookupKey payload "rssi" with
    | some rssi => line ++ "|rssi=" ++ fmtV rssi
    | none => line
  line ++ "\n"

/-- `FileWriter.WriteMessage` from `main.go`.  Beyond the Go argument it
takes the clock reading `now`, the file-system oracle `fs` and the current
contents of the output file; it returns the writer as it stands after the
call, the Go return value, and the new file contents.  When the open
fails the file is untouched; when the single `WriteString` call fails it
is modelled as having written nothing. -/
def WriteMessage (fw : FileWriter) (payload : Payload) (now : String)
    (fs : FsOutcome) (fileContents : String) :
    FileWriter × Except GoError Unit × String :=
  match fs.openErr with
  | some e =>
      (fw, .error (.wrap "failed to open output file: " e), fileContents)
  | none =>
      let line := lineFor now payload
      match fs.writeErr with
      | some e =>
          (fw, .error (.wrap "failed to write to file: " e), fileContents)
      | none => (fw, .ok (), fileContents ++ line)

/-- The output line as the specification words it (§4.1, §8): the RFC3339
timestamp, then the segment `|name=<name>` included exactly when the key
`name` is present, then the segment `|rssi=<rssi>` included exactly when
`rssi` is present (no empty segment or trailing pipe for an absent key),
terminated by a single newline.  Written from the spec's words, to be
compared against `lineFor`, which is transcribed from the source. -/
def specLine (ts : String) (payload : Payload) : String :=
  ts
    ++ (match lookupKey payload "name" with
        | some v => "|name=" ++ fmtV v
        | none => "")
    ++ (match lookupKey payload "rssi" with
        | some v => "|rssi=" ++ fmtV v
        | none => "")
    ++ "\n"

/-! ## The JSON Store Sink (`MessageStore`, the second variant) -/

/-- `MessageRecord`: one persisted record, a `date` string and the
filtered payload (struct field order `Date`, `Payload`, with JSON tags
`date` and `payload`). -/
structure MessageRecord where
  Date : String
  Payload : List (String × JVal)

/-- `MessageStore`: the in-memory ordered record sequence and the output
file path (plus a `sync.RWMutex`, free between calls, modelled in the
lock section). -/
structure MessageStore where
  messages : List MessageRecord
  filePath : String

/-- `NewMessageStore`. -/
def NewMessageStore (filePath : String) : MessageStore :=
  { messages := [], filePath := filePath }

/-- The payload filtering step of `AddMessage`, transcribed from the
source: build a fresh mapping, insert `rssi` if present in the input,
then insert `name` if present.  As an association list the entries appear
in that insertion order (a Go map is unordered; every lookup result below
is order-independent). -/
def filteredPayload (payload : Payload) : Payload :=
  (match lookupKey payload "rssi" with
   | some v => [("rssi", v)]
   | none => [])
  ++
  (match lookupKey payload "name" with
   | some v => [("name", v)]
   | none => [])

/-- Contents of the JSON Store Sink's output file: untouched since the
last observation point, a complete encoded document, or truncated/partial
after `os.Create` succeeded but the encode failed. -/
inductive StoreFile where
  | initial
  | document (v : JVal)
  | corrupt

/-- Outcome oracle for the two file-system steps of one `saveToFile`
(`os.Create` and the `json.Encoder.Encode` call's underlying write):
`none` means success, `some e` failure with underlying error `e`. -/
structure SaveOutcome where
  createErr : Option GoError
  encodeErr : Option GoError

/-- Lexicographic order on character lists by code point; the order in
which `encoding/json` emits the keys of a Go map (byte-wise string
comparison, which agrees with code-point order on the ASCII keys this
tool produces). -/
def lexLe : List Char → List Char → Bool
  | [], _ => true
  | _ :: _, [] => false
  | a :: as, b :: bs =>
      if a.toNat < b.toNat then true
      else if a.toNat = b.toNat then lexLe as bs else false

/-- Key order used by the map marshalling model. -/
def keyLe (a b : String) : Bool := lexLe a.data b.data

/-- Ascending insertion of a field into a key-sorted field list; helper
for `sortFields`. -/
def insertField (kv : String × JVal) :
    List (String × JVal) → List (String × JVal)
  | [] => [kv]
  | kv' :: rest =>
      if keyLe kv.1 kv'.1 then kv :: kv' :: rest else kv' :: insertField kv rest

/-- `encoding/json` marshals a Go map with its keys in ascending order;
this models that ordering (the library is external to the repository). -/
def sortFields (fs : List (String × JVal)) : List (String × JVal) :=
  fs.foldr insertField []

/-- The JSON value `encoding/json` produces for one `MessageRecord`:
an object with the struct's tagged fields in declaration order, the
payload map marshalled with sorted keys. -/
def recordToJson (r : MessageRecord) : JVal :=
  .obj [("date", .str r.Date), ("payload", .obj (sortFields r.Payload))]

/-- The JSON document `saveToFile` encodes: the array of all records in
insertion order. -/
def encodeRecords (rs : List MessageRecord) : JVal :=
  .arr (rs.map recordToJson)

/-- `json.Unmarshal` of one array element into a `MessageRecord` (the
decoder is external; this models its behaviour on the struct: a missing
`date` key leaves the zero string, a missing `payload` key leaves an
empty map, a key of the wrong shape is a decode error). -/
def fromJsonRecord : JVal → Option MessageRecord
  | .obj fields =>
      (match lookupKey fields "date" with
       | some (.str s) => some s
       | some _ => none
       | none => some "").bind fun date =>
      (match lookupKey fields "payload" with
       | some (.obj p) => some p
       | some _ => none
       | none => some ([] : List (String × JVal))).bind fun pl =>
      some { Date := date, Payload := pl }
  | _ => none

/-- `json.Unmarshal` of a whole store document into `[]MessageRecord`. -/
def decodeRecords : JVal → Option (List MessageRecord)
  | .arr vs => vs.mapM fromJsonRecord
  | _ => none

/-- `MessageStore.saveToFile`: create (truncate) the output file and
encode all accumulated messages into it as a two-space-indented JSON
array.  On create failure the file is untouched; on encode failure the
file was already truncated and holds a partial document. -/
def saveToFile (ms : MessageStore) (sv : SaveOutcome) (file : StoreFile) :
    Except GoError Unit × StoreFile :=
  match sv.createErr with
  | some e => (.error (.wrap "failed to create output file: " e), file)
  | none =>
      match sv.encodeErr with
      | some e => (.error (.wrap "failed to encode JSON: " e), .corrupt)
      | none => (.ok (), .document (encodeRecords ms.messages))

/-- `MessageStore.AddMessage`: filter the payload to the `rssi` and
`name` fields, append the record `{Date := now, Payload := filtered}` to
the in-memory sequence, then save everything to the file, returning the
store after the call, the Go return value, and the file afterwards. -/
def AddMessage (ms : MessageStore) (payload : Payload) (now : String)
    (sv : SaveOutcome) (file : StoreFile) :
    MessageStore × Except GoError Unit × StoreFile :=
  let record : MessageRecord := { Date := now, Payload := filteredPayload payload }
  let ms' : MessageStore := { ms with messages := ms.messages ++ [record] }
  let r := saveToFile ms' sv file
  (ms', r.1, r.2)

/-- One call of a sequential `AddMessage` run: the payload, the clock
reading at the time of the call, and that call's file-system outcome. -/
structure CallInput where
  payload : Payload
  now : String
  sv : SaveOutcome

/-- A sequence of sequential `AddMessage` calls, threading the store and
the file through. -/
def runAddMessages (ms : MessageStore) (file : StoreFile) :
    List CallInput → MessageStore × StoreFile
  | [] => (ms, file)
  | c :: rest =>
      let r := AddMessage ms c.payload c.now c.sv file
      runAddMessages r.1 r.2.2 rest

/-! ## The message handler (dispatcher side) -/

/-- The Line Sink variant's `messageHandler` closure body for one inbound
message.  `json.Unmarshal` of the raw message body is external and enters
as the oracle `decoded` (`none`: the bytes fail to decode, the handler
logs and returns; `some payload`: the decoded mapping).  Returns the
contents of the output file after the handler returns, and whether the
sink (`WriteMessage`) was invoked. -/
def handleMessageLine (fw : FileWriter) (decoded : Option Payload)
    (now : String) (fs : FsOutcome) (fileContents : String) :
    String × Bool :=
  match decoded with
  | none => (fileContents, false)
  | some payload =>
      let r := WriteMessage fw payload now fs fileContents
      (r.2.2, true)

/-- The JSON Store variant's `messageHandler` closure body, likewise:
on decode failure it logs and returns without touching the store; a
sink error is logged and the handler returns. -/
def handleMessageStore (ms : MessageStore) (decoded : Option Payload)
    (now : String) (sv : SaveOutcome) (file : StoreFile) :
    MessageStore × StoreFile × Bool :=
  match decoded with
  | none => (ms, file, false)
  | some payload =>
      let r := AddMessage ms payload now sv file
      (r.1, r.2.2, true)

/-! ## Configuration loading -/

/-- The `MQTT` sub-struct of `Config`. -/
structure MQTTSettings where
  Broker : String
  Port : Int
  Username : String
  Password : String
  Topics : List String

/-- `Config` from both variants. -/
structure Config where
  MQTT : MQTTSettings
  OutputFile : String

/-- The configuration file's contents as the viper read+unmarshal step
delivers them (viper is external; a read or unmarshal failure returns its
wrapped error before the logic modelled here runs).  The two keys with
registered defaults are `none` when the file does not specify them; the
remaining fields take the Go zero value (empty string, empty list) when
unspecified. -/
structure RawConfig where
  broker : String
  port : Option Int
  username : String
  password : String
  topics : List String
  outputFile : Option String

/-- `loadConfig` after a successful read and unmarshal: apply the two
registered defaults (`mqtt.port` ↦ 1883, `output_file` ↦ the built-in
default name, which is `"mqtt-trace.log"` in the Line Sink variant and
`"mqtt-trace.json"` in the JSON Store variant, passed here as
`dfltOutput`), then validate that a broker is set and at least one topic
is configured. -/
def loadConfig (dfltOutput : String) (raw : RawConfig) :
    Except GoError Config :=
  let cfg : Config :=
    { MQTT :=
        { Broker := raw.broker
          Port := raw.port.getD 1883
          Username := raw.username
          Password := raw.password
          Topics := raw.topics }
      OutputFile := raw.outputFile.getD dfltOutput }
  if cfg.MQTT.Broker = "" then
    .error (.base "mqtt.broker is required")
  else if cfg.MQTT.Topics.length = 0 then
    .error (.base "at least one mqtt.topic is required")
  else
    .ok cfg

/-! ## The mutex under concurrent invocation

Both sinks wrap their entire body in `mu.Lock()` … `defer mu.Unlock()`.
The model below is a small-step interleaving semantics for `N` goroutines
contending for one mutual-exclusion lock around a critical section that
mutates shared data `D`: a thread acquires the free lock, performs the
elementary mutations of its critical section one at a time (other threads
may be scheduled between any two elementary steps, but can neither
acquire the held lock nor mutate the shared data without holding it), and
releases the lock when its section is complete.  For the Line Sink the
elementary mutations are the individual byte appends of one output line;
for the JSON Store Sink they are the in-memory append and the whole-file
rewrite of one `AddMessage` body. -/

/-- Progress of one goroutine: not yet entered, inside the critical
section, or done. -/
inductive WPhase where
  | idle
  | cs
  | finished
deriving DecidableEq

/-- Global state: each thread's phase and program counter within its
critical section, the current lock holder, and the shared data. -/
structure LockState (N : Nat) (D : Type) where
  phase : Fin N → WPhase
  pc : Fin N → Nat
  holder : Option (Fin N)
  data : D

/-- One interleaving step of the lock model.  `prog i` is thread `i`'s
critical section: the ordered list of elementary mutations it performs on
the shared data. -/
inductive LockStep (N : Nat) {D : Type} (prog : Fin N → List (D → D)) :
    LockState N D → LockState N D → Prop where
  | acquire (s : LockState N D) (i : Fin N)
      (hp : s.phase i = .idle) (hh : s.holder = none) :
      LockStep N prog s
        { s with phase := Function.update s.phase i .cs, holder := some i }
  | effect (s : LockState N D) (i : Fin N)
      (hp : s.phase i = .cs) (hh : s.holder = some i)
      (hk : s.pc i < (prog i).length) :
      LockStep N prog s
        { s with pc := Function.update s.pc i (s.pc i + 1),
                 data := ((prog i).get ⟨s.pc i, hk⟩) s.data }
  | release (s : LockState N D) (i : Fin N)
      (hp : s.phase i = .cs) (hh : s.holder = some i)
      (hk : s.pc i = (prog i).length) :
      LockStep N prog s
        { s with phase := Function.update s.phase i .finished, holder := none }

/-- The state before any of the `N` calls has begun. -/
def initLock (N : Nat) {D : Type} (d0 : D) : LockState N D :=
  { phase := fun _ => .idle, pc := fun _ => 0, holder := none, data := d0 }

/-- Run a list of elementary mutations in order. -/
def runSteps {D : Type} (fs : List (D → D)) (d : D) : D :=
  fs.foldl (fun d f => f d) d

/-- Run whole critical sections sequentially in the order given. -/
def runThreads {N : Nat} {D : Type} (prog : Fin N → List (D → D)) (d0 : D)
    (order : List (Fin N)) : D :=
  order.foldl (fun d i => runSteps (prog i) d) d0

/-- The inductive invariant of the lock model: lock-holding discipline,
program-counter sanity, and the key assertion — the shared data always
equals the sequential execution of the finished threads' critical
sections (in their completion order) followed by the lock holder's
partial progress. -/
def LockInv {N : Nat} {D : Type} (prog : Fin N → List (D → D)) (d0 : D)
    (s : LockState N D) : Prop :=
  (∀ i, s.holder = some i → s.phase i = .cs) ∧
  (∀ i, s.phase i = .cs → s.holder = some i) ∧
  (∀ i, s.phase i = .idle → s.pc i = 0) ∧
  (∀ i, s.pc i ≤ (prog i).length) ∧
  ∃ order : List (Fin N), order.Nodup ∧
    (∀ i, i ∈ order ↔ s.phase i = .finished) ∧
    s.data =
      (match s.holder with
       | some i => runSteps ((prog i).take (s.pc i)) (runThreads prog d0 order)
       | none => runThreads prog d0 order)

/-- The elementary mutation of appending one byte to the output file. -/
def appendChar (c : Char) : List Char → List Char :=
  fun f => f ++ [c]

/-- Thread `i`'s critical section in the Line Sink: append its line's
bytes in order. -/
def lineProg {N : Nat} (lines : Fin N → List Char) :
    Fin N → List (List Char → List Char) :=
  fun i => (lines i).map appendChar

/-- Thread `i`'s critical section in the JSON Store Sink: the `AddMessage`
body's two mutations of the shared store-and-file state — append the
filtered record to the in-memory sequence, then rewrite the whole output
file. -/
def storeProg {N : Nat} (calls : Fin N → CallInput) :
    Fin N → List (MessageStore × StoreFile → MessageStore × StoreFile) :=
  fun i =>
    [fun d =>
      ({ d.1 with
          messages := d.1.messages ++
            [{ Date := (calls i).now,
               Payload := filteredPayload (calls i).payload }] }, d.2),
     fun d => (d.1, (saveToFile d.1 (calls i).sv d.2).2)]

/-- Sequential execution of `AddMessage` calls in the order given,
starting from a store-and-file state. -/
def serialStoreRun {N : Nat} (calls : Fin N → CallInput)
    (d : MessageStore × StoreFile) (order : List (Fin N)) :
    MessageStore × StoreFile :=
  order.foldl
    (fun d i =>
      let r := AddMessage d.1 (calls i).payload (calls i).now (calls i).sv d.2
      (r.1, r.2.2)) d

/-! ## Concrete demonstration inputs, used by witness theorems -/

/-- The spec's example scenario payload `{"name":"LYSD03MMC","rssi":-65}`
as one successful store call. -/
def demoCall : CallInput :=
  { payload := [("name", JVal.str "LYSD03MMC"), ("rssi", JVal.num (-65))]
    now := "2024-01-15T10:30:45Z"
    sv := { createErr := none, encodeErr := none } }

/-- A second concrete successful store call, with only `rssi` present. -/
def demoCall2 : CallInput :=
  { payload := [("rssi", JVal.num (-67)), ("temp", JVal.num 21)]
    now := "2024-01-15T10:31:15Z"
    sv := { createErr := none, encodeErr := none } }

/-- One concrete line for the lock-model demonstration. -/
def demoLines : Fin 1 → List Char := fun _ => ['a', '\n']

/-- One concrete store call for the lock-model demonstration. -/
def demoCalls : Fin 1 → CallInput := fun _ => demoCall

/-- The state reached after one thread's full Line Sink critical section
(acquire, two byte appends, release) in the lock model. -/
def demoLineFinal : LockState 1 (List Char) :=
  { phase := Function.update
      (Function.update (fun _ => WPhase.idle) 0 WPhase.cs) 0 WPhase.finished
    pc := Function.update (Function.update (fun _ => 0) 0 1) 0 2
    holder := none
    data := ['a', '\n'] }

/-- The state reached after one thread's full JSON Store critical section
(acquire, in-memory append, file rewrite, release) in the lock model. -/
def demoStoreFinal : LockState 1 (MessageStore × StoreFile) :=
  { phase := Function.update
      (Function.update (fun _ => WPhase.idle) 0 WPhase.cs) 0 WPhase.finished
    pc := Function.update (Function.update (fun _ => 0) 0 1) 0 2
    holder := none
    data := ((AddMessage (NewMessageStore "out") demoCall.payload demoCall.now
                demoCall.sv .initial).1,
             (AddMessage (NewMessageStore "out") demoCall.payload demoCall.now
                demoCall.sv .initial).2.2) }

/-! # Theorems -/

theorem lineFor_eq_specLine (now : String) (payload : Payload) :
    lineFor now payload = specLine now payload := by
  unfold lineFor specLine
  cases lookupKey payload "name" <;> cases lookupKey payload "rssi" <;>
    simp [String.append_assoc, String.append_empty]

/-- C1: for every payload mapping, the Line Sink builds exactly the line
consisting of the timestamp, then `|name=<name>` if and only if `name` is
present, then `|rssi=<rssi>` if and only if `rssi` is present, in that
order with no empty segment or trailing pipe for an absent key,
terminated by a single newline (`specLine` transcribes the spec's format,
`lineFor`/`WriteMessage` the source); a payload with neither key yields
exactly the timestamp followed by a newline. -/
theorem line_sink_output_format (fw : FileWriter) (payload : Payload)
    (now fc : String) :
    lineFor now payload = specLine now payload ∧
    (WriteMessage fw payload now ⟨none, none⟩ fc).2.2
      = fc ++ specLine now payload ∧
    (lookupKey payload "name" = none → lookupKey payload "rssi" = none →
      lineFor now payload = now ++ "\n") := by
  refine ⟨lineFor_eq_specLine now payload, ?_, ?_⟩
  · show fc ++ lineFor now payload = fc ++ specLine now payload
    rw [lineFor_eq_specLine]
  · intro h1 h2
    unfold lineFor
    rw [h1, h2]

/-- Witness for C1: a payload containing neither `name` nor `rssi`
produces the bare timestamped line. -/
theorem line_sink_output_format_witness :
    lineFor "2024-01-15T10:30:45Z" [("id", JVal.num 7)]
      = "2024-01-15T10:30:45Z" ++ "\n" :=
  (line_sink_output_format (NewFileWriter "out") [("id", JVal.num 7)]
    "2024-01-15T10:30:45Z" "").2.2 rfl rfl

/-- C9: a `WriteMessage` call leaves the `FileWriter`'s state unchanged
whether it succeeds or fails, retains nothing in memory, and its only
effect is the single appended line on disk (no line on failure). -/
theorem line_sink_no_retention (fw : FileWriter) (payload : Payload)
    (now : String) (fs : FsOutcome) (fc : String) :
    (WriteMessage fw payload now fs fc).1 = fw ∧
    (fs.openErr = none → fs.writeErr = none →
      (WriteMessage fw payload now fs fc).2.2 = fc ++ lineFor now payload) ∧
    (∀ e, (WriteMessage fw payload now fs fc).2.1 = .error e →
      (WriteMessage fw payload now fs fc).2.2 = fc) := by
  obtain ⟨oe, we⟩ := fs
  cases oe <;> cases we <;> simp [WriteMessage]

/-- Witness for C9: a successful call appends exactly its line. -/
theorem line_sink_no_retention_witness :
    (WriteMessage (NewFileWriter "out") [("name", JVal.str "LYSD03MMC")]
        "2024-01-15T10:30:45Z" ⟨none, none⟩ "").2.2
      = "" ++ lineFor "2024-01-15T10:30:45Z" [("name", JVal.str "LYSD03MMC")] :=
  (line_sink_no_retention (NewFileWriter "out") [("name", JVal.str "LYSD03MMC")]
    "2024-01-15T10:30:45Z" ⟨none, none⟩ "").2.1 rfl rfl

/-- C3: the filtered payload stored by the JSON Store Sink restricts the
input exactly to `name` and `rssi`: each of the two keys is present in
the filtered mapping if and only if it is present in the input, with the
value copied verbatim; no other key survives; with neither key present
the filtered payload is empty, yet a record is still appended. -/
theorem store_payload_filtering (payload : Payload) (ms : MessageStore)
    (now : String) (sv : SaveOutcome) (file : StoreFile) :
    lookupKey (filteredPayload payload) "name" = lookupKey payload "name" ∧
    lookupKey (filteredPayload payload) "rssi" = lookupKey payload "rssi" ∧
    (∀ k, k ≠ "name" → k ≠ "rssi" →
      lookupKey (filteredPayload payload) k = none) ∧
    (lookupKey payload "name" = none → lookupKey payload "rssi" = none →
      filteredPayload payload = []) ∧
    (AddMessage ms payload now sv file).1.messages.length
      = ms.messages.length + 1 := by
  refine ⟨?_, ?_, ?_, ?_, by simp [AddMessage]⟩
  · unfold filteredPayload
    cases h1 : lookupKey payload "rssi" <;> cases h2 : lookupKey payload "name" <;>
      simp [lookupKey, h2]
  · unfold filteredPayload
    cases h1 : lookupKey payload "rssi" <;> cases h2 : lookupKey payload "name" <;>
      simp [lookupKey, h1]
  · intro k hk1 hk2
    unfold filteredPayload
    cases h1 : lookupKey payload "rssi" <;> cases h2 : lookupKey payload "name" <;>
      simp [lookupKey, Ne.symm hk1, Ne.symm hk2]
  · intro h1 h2
    unfold filteredPayload
    rw [h1, h2]
    rfl

/-- Witness for C3: a payload with neither field filters to the empty
mapping, and a foreign key does not survive filtering. -/
theorem store_payload_filtering_witness :
    filteredPayload [("temp", JVal.num 21)] = [] ∧
    lookupKey (filteredPayload [("name", JVal.str "x"), ("extra", JVal.null)])
      "extra" = none :=
  ⟨(store_payload_filtering [("temp", JVal.num 21)] (NewMessageStore "out")
      "2024-01-15T10:30:45Z" ⟨none, none⟩ .initial).2.2.2.1 rfl rfl,
   (store_payload_filtering [("name", JVal.str "x"), ("extra", JVal.null)]
      (NewMessageStore "out") "2024-01-15T10:30:45Z" ⟨none, none⟩
      .initial).2.2.1 "extra" (by decide) (by decide)⟩

/-- C5: `AddMessage` appends the new record to the in-memory sequence
before attempting the file write, so the store's state after the call is
the same whatever the file-system outcome — a failed call retains the
record in memory exactly as a successful one does. -/
theorem store_retains_on_failure (ms : MessageStore) (payload : Payload)
    (now : String) (sv sv' : SaveOutcome) (file file' : StoreFile) :
    (AddMessage ms payload now sv file).1.messages
      = ms.messages ++ [{ Date := now, Payload := filteredPayload payload }] ∧
    (AddMessage ms payload now sv file).1
      = (AddMessage ms payload now sv' file').1 :=
  ⟨rfl, rfl⟩

/-- C6: each sink call returns an error exactly when its open/create step
or its write/encode step fails, wrapping the underlying cause with a
distinct message per step, and returns no error on success; the model is
a total function — no panic, no process exit. -/
theorem sink_error_propagation (fw : FileWriter) (ms : MessageStore)
    (payload : Payload) (now : String) (fs : FsOutcome) (sv : SaveOutcome)
    (fc : String) (file : StoreFile) (e : GoError) :
    ((fs.openErr = some e →
        (WriteMessage fw payload now fs fc).2.1
          = .error (.wrap "failed to open output file: " e)) ∧
     (fs.openErr = none → fs.writeErr = some e →
        (WriteMessage fw payload now fs fc).2.1
          = .error (.wrap "failed to write to file: " e)) ∧
     (fs.openErr = none → fs.writeErr = none →
        (WriteMessage fw payload now fs fc).2.1 = .ok ())) ∧
    ((sv.createErr = some e →
        (AddMessage ms payload now sv file).2.1
          = .error (.wrap "failed to create output file: " e)) ∧
     (sv.createErr = none → sv.encodeErr = some e →
        (AddMessage ms payload now sv file).2.1
          = .error (.wrap "failed to encode JSON: " e)) ∧
     (sv.createErr = none → sv.encodeErr = none →
        (AddMessage ms payload now sv file).2.1 = .ok ())) ∧
    (∀ m, (GoError.wrap m e).unwrap = some e ∧
      (GoError.wrap m e).message = m ++ e.message) ∧
    ("failed to open output file: " : String) ≠ "failed to write to file: " ∧
    ("failed to create output file: " : String) ≠ "failed to encode JSON: " := by
  obtain ⟨oe, we⟩ := fs
  obtain ⟨ce, ee⟩ := sv
  refine ⟨?_, ?_, fun m => ⟨rfl, rfl⟩, by decide, by decide⟩
  · cases oe <;> cases we <;> simp [WriteMessage]
  · cases ce <;> cases ee <;> simp [AddMessage, saveToFile]

/-- Witness for C6: a failing open is reported as the wrapped open error;
a failing encode is reported as the wrapped encode error. -/
theorem sink_error_propagation_witness :
    (WriteMessage (NewFileWriter "out") [] "2024-01-15T10:30:45Z"
        ⟨some (GoError.base "disk full"), none⟩ "").2.1
      = .error (.wrap "failed to open output file: " (GoError.base "disk full")) ∧
    (AddMessage (NewMessageStore "out") [] "2024-01-15T10:30:45Z"
        ⟨none, some (GoError.base "disk full")⟩ .initial).2.1
      = .error (.wrap "failed to encode JSON: " (GoError.base "disk full")) :=
  ⟨(sink_error_propagation (NewFileWriter "out") (NewMessageStore "out") []
      "2024-01-15T10:30:45Z" ⟨some (GoError.base "disk full"), none⟩
      ⟨none, some (GoError.base "disk full")⟩ "" .initial
      (GoError.base "disk full")).1.1 rfl,
   (sink_error_propagation (NewFileWriter "out") (NewMessageStore "out") []
      "2024-01-15T10:30:45Z" ⟨some (GoError.base "disk full"), none⟩
      ⟨none, some (GoError.base "disk full")⟩ "" .initial
      (GoError.base "disk full")).2.1.2.1 rfl rfl⟩

/-- C7: the message handler invokes the sink exactly when JSON decoding
of the inbound payload succeeds; on decode failure it returns with the
output file, the in-memory store and the sink untouched (both variants). -/
theorem handler_decode_gate (fw : FileWriter) (ms : MessageStore)
    (payload : Payload) (now : String) (fs : FsOutcome) (sv : SaveOutcome)
    (fc : String) (file : StoreFile) :
    handleMessageLine fw none now fs fc = (fc, false) ∧
    handleMessageLine fw (some payload) now fs fc
      = ((WriteMessage fw payload now fs fc).2.2, true) ∧
    handleMessageStore ms none now sv file = (ms, file, false) ∧
    handleMessageStore ms (some payload) now sv file
      = ((AddMessage ms payload now sv file).1,
         (AddMessage ms payload now sv file).2.2, true) :=
  ⟨rfl, rfl, rfl, rfl⟩

/-- C10: after a successful read and unmarshal, `loadConfig` errors
exactly when the broker is empty or the topic list is empty; otherwise it
returns the configuration with an unspecified port defaulted to 1883 and
an unspecified output path defaulted to the built-in name. -/
theorem loadConfig_validates (dflt : String) (raw : RawConfig) :
    ((∃ e, loadConfig dflt raw = .error e) ↔
      raw.broker = "" ∨ raw.topics = []) ∧
    (∀ cfg, loadConfig dflt raw = .ok cfg →
      cfg.MQTT.Broker = raw.broker ∧
      cfg.MQTT.Port = raw.port.getD 1883 ∧
      cfg.MQTT.Username = raw.username ∧
      cfg.MQTT.Password = raw.password ∧
      cfg.MQTT.Topics = raw.topics ∧
      cfg.OutputFile = raw.outputFile.getD dflt) := by
  unfold loadConfig
  by_cases h1 : raw.broker = "" <;> by_cases h2 : raw.topics = [] <;>
    simp [h1, h2, List.length_eq_zero]

theorem runAddMessages_messages (ms : MessageStore) (file : StoreFile)
    (cs : List CallInput) :
    (runAddMessages ms file cs).1.messages
      = ms.messages ++ cs.map
          (fun c => { Date := c.now, Payload := filteredPayload c.payload }) := by
  induction cs generalizing ms file with
  | nil => simp [runAddMessages]
  | cons c rest ih =>
      simp [runAddMessages, ih, AddMessage, List.append_assoc]

theorem runAddMessages_file (cs : List CallInput) :
    ∀ ms file,
    (∀ c ∈ cs, c.sv.createErr = none ∧ c.sv.encodeErr = none) → cs ≠ [] →
    (runAddMessages ms file cs).2
      = .document (encodeRecords (runAddMessages ms file cs).1.messages) := by
  induction cs with
  | nil => exact fun ms file _ h => absurd rfl h
  | cons c rest ih =>
      intro ms file hok _
      obtain ⟨h1, h2⟩ := hok c (List.mem_cons_self c rest)
      by_cases hr : rest = []
      · subst hr
        simp [runAddMessages, AddMessage, saveToFile, h1, h2]
      · show (runAddMessages _ _ rest).2 = _
        exact ih _ _ (fun d hd => hok d (List.mem_cons_of_mem c hd)) hr

/-- C2: starting from a fresh store, M sequential `AddMessage` calls
leave exactly M records in memory, in call order, the i-th carrying the
i-th call's timestamp and filtered payload; and when the calls' file
writes succeed, the output file holds the JSON array encoding exactly
that sequence. -/
theorem store_count_and_order (path : String) (file : StoreFile)
    (cs : List CallInput) :
    (runAddMessages (NewMessageStore path) file cs).1.messages
      = cs.map (fun c => { Date := c.now, Payload := filteredPayload c.payload }) ∧
    (runAddMessages (NewMessageStore path) file cs).1.messages.length
      = cs.length ∧
    (∀ i, i < cs.length →
      (runAddMessages (NewMessageStore path) file cs).1.messages[i]?
        = cs[i]?.map
            (fun c => { Date := c.now, Payload := filteredPayload c.payload })) ∧
    (cs ≠ [] → (∀ c ∈ cs, c.sv.createErr = none ∧ c.sv.encodeErr = none) →
      (runAddMessages (NewMessageStore path) file cs).2
        = .document (encodeRecords
            (runAddMessages (NewMessageStore path) file cs).1.messages)) := by
  have hm : (runAddMessages (NewMessageStore path) file cs).1.messages
      = cs.map (fun c => { Date := c.now, Payload := filteredPayload c.payload }) := by
    rw [runAddMessages_messages]
    exact List.nil_append _
  refine ⟨hm, by rw [hm]; simp, ?_, fun h1 h2 => runAddMessages_file cs _ _ h2 h1⟩
  intro i _
  rw [hm, List.getElem?_map]

/-- Witness for C2: two successful calls leave two records in order and
the file holds their encoding. -/
theorem store_count_and_order_witness :
    (runAddMessages (NewMessageStore "out") .initial
        [demoCall, demoCall2]).1.messages[1]?
      = some { Date := demoCall2.now,
               Payload := filteredPayload demoCall2.payload } ∧
    (runAddMessages (NewMessageStore "out") .initial [demoCall, demoCall2]).2
      = .document (encodeRecords
          (runAddMessages (NewMessageStore "out") .initial
            [demoCall, demoCall2]).1.messages) := by
  refine ⟨?_, ?_⟩
  · have h := (store_count_and_order "out" .initial [demoCall, demoCall2]).2.2.1
      1 (by decide)
    simpa using h
  · exact (store_count_and_order "out" .initial [demoCall, demoCall2]).2.2.2
      (by simp)
      (by
        intro c hc
        simp only [List.mem_cons, List.not_mem_nil, or_false] at hc
        rcases hc with h | h <;> subst h <;> exact ⟨rfl, rfl⟩)

theorem fromJson_recordToJson (r : MessageRecord) :
    fromJsonRecord (recordToJson r)
      = some { Date := r.Date, Payload := sortFields r.Payload } := rfl

theorem lookup_sortFields_filtered (p : Payload) (k : String) :
    lookupKey (sortFields (filteredPayload p)) k
      = lookupKey (filteredPayload p) k := by
  unfold filteredPayload
  cases h1 : lookupKey p "rssi" <;> cases h2 : lookupKey p "name"
  · rfl
  · rfl
  · rfl
  · by_cases hk1 : "name" = k
    · subst hk1
      rfl
    · by_cases hk2 : "rssi" = k
      · subst hk2
        rfl
      · simp [sortFields, insertField, keyLe, lexLe, lookupKey, hk1, hk2]

theorem decode_encode (msgs : List MessageRecord) :
    decodeRecords (encodeRecords msgs)
      = some (msgs.map
          (fun r => { Date := r.Date, Payload := sortFields r.Payload })) := by
  show (msgs.map recordToJson).mapM fromJsonRecord = _
  induction msgs with
  | nil => rfl
  | cons r rest ih =>
      rw [List.map_cons, List.mapM_cons, fromJson_recordToJson, ih,
        List.map_cons]
      rfl

/-- C4: encoding the records accumulated by the JSON Store Sink as
`saveToFile` does and JSON-decoding the result reproduces the same
ordered sequence of records field-for-field: same length, same date
strings, and payloads agreeing on every key (the decoder returns the
payload fields in the encoder's sorted key order; as mappings they are
identical). -/
theorem store_roundtrip (path : String) (file : StoreFile)
    (cs : List CallInput) :
    ∃ decoded : List MessageRecord,
      decodeRecords (encodeRecords
          (runAddMessages (NewMessageStore path) file cs).1.messages)
        = some decoded ∧
      decoded.length
        = (runAddMessages (NewMessageStore path) file cs).1.messages.length ∧
      (∀ i, i < cs.length →
        ∃ d m, decoded[i]? = some d ∧
          (runAddMessages (NewMessageStore path) file cs).1.messages[i]?
            = some m ∧
          d.Date = m.Date ∧
          ∀ k, lookupKey d.Payload k = lookupKey m.Payload k) := by
  have hm : (runAddMessages (NewMessageStore path) file cs).1.messages
      = cs.map (fun c => { Date := c.now, Payload := filteredPayload c.payload }) := by
    rw [runAddMessages_messages]
    exact List.nil_append _
  refine ⟨cs.map (fun c =>
      { Date := c.now, Payload := sortFields (filteredPayload c.payload) }),
    ?_, ?_, ?_⟩
  · rw [hm, decode_encode, List.map_map]
    rfl
  · rw [hm]
    simp
  · intro i hi
    refine ⟨{ Date := cs[i].now,
              Payload := sortFields (filteredPayload cs[i].payload) },
      { Date := cs[i].now, Payload := filteredPayload cs[i].payload },
      ?_, ?_, rfl, fun k => lookup_sortFields_filtered _ k⟩
    · rw [List.getElem?_map, List.getElem?_eq_getElem hi]
      rfl
    · rw [hm, List.getElem?_map, List.getElem?_eq_getElem hi]
      rfl

/-- Witness for C4: the round trip at the spec's example scenario. -/
theorem store_roundtrip_witness :
    ∃ decoded : List MessageRecord,
      decodeRecords (encodeRecords
          (runAddMessages (NewMessageStore "out") .initial
            [demoCall]).1.messages) = some decoded ∧
      decoded.length = 1 := by
  obtain ⟨d, hd, hlen, hpt⟩ := store_roundtrip "out" .initial [demoCall]
  refine ⟨d, hd, ?_⟩
  rw [hlen]
  rfl

/-- Witness for C10: the empty broker is rejected; a well-formed raw
configuration comes back with the defaults applied. -/
theorem loadConfig_validates_witness :
    (∃ e, loadConfig "mqtt-trace.log"
        { broker := "", port := none, username := "", password := "",
          topics := [], outputFile := none } = .error e) ∧
    ((Config.mk (MQTTSettings.mk "localhost" 1883 "" "" ["a/b"])
        "mqtt-trace.log").MQTT.Port = (none : Option Int).getD 1883 ∧
      True) :=
  ⟨(loadConfig_validates "mqtt-trace.log"
      { broker := "", port := none, username := "", password := "",
        topics := [], outputFile := none }).1.mpr (Or.inl rfl),
   ((loadConfig_validates "mqtt-trace.log"
      { broker := "localhost", port := none, username := "", password := "",
        topics := ["a/b"], outputFile := none }).2
      (Config.mk (MQTTSettings.mk "localhost" 1883 "" "" ["a/b"])
        "mqtt-trace.log") rfl).2.1.symm ▸ ⟨rfl, trivial⟩⟩

theorem runSteps_take_succ {D : Type} (fs : List (D → D)) (k : Nat)
    (hk : k < fs.length) (d : D) :
    runSteps (fs.take (k + 1)) d = fs.get ⟨k, hk⟩ (runSteps (fs.take k) d) := by
  show (fs.take (k + 1)).foldl (fun d f => f d) d = _
  rw [← List.take_concat_get' fs k hk, List.foldl_append]
  rfl

theorem lockInv_init {N : Nat} {D : Type} (prog : Fin N → List (D → D))
    (d0 : D) : LockInv prog d0 (initLock N d0) :=
  ⟨fun _ h => Option.noConfusion h,
   fun _ h => WPhase.noConfusion h,
   fun _ _ => rfl,
   fun _ => Nat.zero_le _,
   [], List.nodup_nil,
   fun i => ⟨fun h => absurd h (List.not_mem_nil i),
     fun h => WPhase.noConfusion h⟩,
   rfl⟩

theorem lockInv_step {N : Nat} {D : Type} {prog : Fin N → List (D → D)}
    {d0 : D} {s s' : LockState N D} (hstep : LockStep N prog s s')
    (hinv : LockInv prog d0 s) : LockInv prog d0 s' := by
  obtain ⟨hh1, hh2, hpc0, hle, order, hnd, hmem, hdata⟩ := hinv
  cases hstep with
  | acquire i hp hh =>
      rw [hh] at hdata
      simp only [LockInv]
      refine ⟨?_, ?_, ?_, hle, order, hnd, ?_, ?_⟩
      · intro j hj
        obtain rfl : i = j := Option.some.inj hj
        exact Function.update_same i WPhase.cs s.phase
      · intro j hj
        by_cases hij : j = i
        · subst hij
          rfl
        · rw [Function.update_noteq hij] at hj
          have := hh2 j hj
          rw [hh] at this
          exact Option.noConfusion this
      · intro j hj
        by_cases hij : j = i
        · subst hij
          rw [Function.update_same] at hj
          exact WPhase.noConfusion hj
        · rw [Function.update_noteq hij] at hj
          exact hpc0 j hj
      · intro j
        by_cases hij : j = i
        · subst hij
          rw [Function.update_same]
          constructor
          · intro hj
            have := (hmem j).1 hj
            rw [hp] at this
            exact WPhase.noConfusion this
          · intro hj
            exact WPhase.noConfusion hj
        · rw [Function.update_noteq hij]
          exact hmem j
      · rw [hpc0 i hp]
        exact hdata
  | effect i hp hh hk =>
      rw [hh] at hdata
      dsimp only at hdata
      simp only [LockInv]
      refine ⟨hh1, hh2, ?_, ?_, order, hnd, hmem, ?_⟩
      · intro j hj
        by_cases hij : j = i
        · subst hij
          rw [hp] at hj
          exact WPhase.noConfusion hj
        · rw [Function.update_noteq hij]
          exact hpc0 j hj
      · intro j
        by_cases hij : j = i
        · subst hij
          rw [Function.update_same]
          omega
        · rw [Function.update_noteq hij]
          exact hle j
      · rw [hh]
        dsimp only
        rw [Function.update_same, hdata, runSteps_take_succ (prog i) (s.pc i) hk]
  | release i hp hh hk =>
      rw [hh] at hdata
      dsimp only at hdata
      have hinot : i ∉ order := fun hin => by
        have := (hmem i).1 hin
        rw [hp] at this
        exact WPhase.noConfusion this
      simp only [LockInv]
      refine ⟨?_, ?_, ?_, hle, order ++ [i], ?_, ?_, ?_⟩
      · intro j hj
        exact Option.noConfusion hj
      · intro j hj
        by_cases hij : j = i
        · subst hij
          rw [Function.update_same] at hj
          exact WPhase.noConfusion hj
        · rw [Function.update_noteq hij] at hj
          have := hh2 j hj
          rw [hh] at this
          exact absurd (Option.some.inj this).symm hij
      · intro j hj
        by_cases hij : j = i
        · subst hij
          rw [Function.update_same] at hj
          exact WPhase.noConfusion hj
        · rw [Function.update_noteq hij] at hj
          exact hpc0 j hj
      · simp [List.nodup_append, hnd, hinot]
      · intro j
        by_cases hij : j = i
        · subst hij
          rw [Function.update_same]
          simp
        · rw [Function.update_noteq hij]
          simp only [List.mem_append, List.mem_singleton, hij, or_false]
          exact hmem j
      · rw [hdata, hk, List.take_length]
        simp [runThreads, runSteps, List.foldl_append]

theorem lockInv_reachable {N : Nat} {D : Type} {prog : Fin N → List (D → D)}
    {d0 : D} {s : LockState N D}
    (h : Relation.ReflTransGen (LockStep N prog) (initLock N d0) s) :
    LockInv prog d0 s := by
  induction h with
  | refl => exact lockInv_init prog d0
  | tail _ hstep ih => exact lockInv_step hstep ih

theorem lock_final {N : Nat} {D : Type} {prog : Fin N → List (D → D)}
    {d0 : D} {s : LockState N D}
    (h : Relation.ReflTransGen (LockStep N prog) (initLock N d0) s)
    (hfin : ∀ i, s.phase i = .finished) :
    ∃ order : List (Fin N), order.Perm (List.finRange N) ∧
      s.data = runThreads prog d0 order := by
  obtain ⟨hh1, _, _, _, order, hnd, hmem, hdata⟩ := lockInv_reachable h
  have hnone : s.holder = none := by
    cases hho : s.holder with
    | none => rfl
    | some i =>
        have := hh1 i hho
        rw [hfin i] at this
        exact WPhase.noConfusion this
  rw [hnone] at hdata
  refine ⟨order, ?_, hdata⟩
  refine List.perm_of_nodup_nodup_toFinset_eq hnd (List.nodup_finRange N) ?_
  ext j
  simp [List.mem_toFinset, hmem j, hfin j, List.mem_finRange]

theorem sum_map_one {A : Type} (l : List A) :
    (l.map (fun _ => (1 : Nat))).sum = l.length := by
  induction l with
  | nil => rfl
  | cons x xs ih => simp [ih, Nat.add_comm]

theorem runSteps_lineProg (cs : List Char) (d : List Char) :
    runSteps (cs.map appendChar) d = d ++ cs := by
  induction cs generalizing d with
  | nil => simp [runSteps]
  | cons c cst ih =>
      show runSteps (List.map appendChar cst) (appendChar c d) = _
      rw [ih]
      simp [appendChar]

theorem runThreads_lineProg {N : Nat} (lines : Fin N → List Char)
    (d : List Char) (order : List (Fin N)) :
    runThreads (lineProg lines) d order = d ++ (order.map lines).flatten := by
  induction order generalizing d with
  | nil => simp [runThreads]
  | cons i rest ih =>
      show runThreads (lineProg lines) (runSteps (lineProg lines i) d) rest = _
      rw [show runSteps (lineProg lines i) d = d ++ lines i from
        runSteps_lineProg (lines i) d, ih]
      simp [List.append_assoc]

theorem runSteps_storeProg {N : Nat} (calls : Fin N → CallInput) (i : Fin N)
    (d : MessageStore × StoreFile) :
    runSteps (storeProg calls i) d
      = ((AddMessage d.1 (calls i).payload (calls i).now (calls i).sv d.2).1,
         (AddMessage d.1 (calls i).payload (calls i).now (calls i).sv d.2).2.2) :=
  rfl

theorem runThreads_storeProg {N : Nat} (calls : Fin N → CallInput)
    (d : MessageStore × StoreFile) (order : List (Fin N)) :
    runThreads (storeProg calls) d order = serialStoreRun calls d order := by
  induction order generalizing d with
  | nil => rfl
  | cons i rest ih =>
      show runThreads (storeProg calls) (runSteps (storeProg calls i) d) rest = _
      rw [runSteps_storeProg, ih]
      rfl

theorem serialStoreRun_messages {N : Nat} (calls : Fin N → CallInput)
    (d : MessageStore × StoreFile) (order : List (Fin N)) :
    (serialStoreRun calls d order).1.messages
      = d.1.messages ++ order.map
          (fun i => { Date := (calls i).now,
                      Payload := filteredPayload (calls i).payload }) := by
  induction order generalizing d with
  | nil => simp [serialStoreRun]
  | cons i rest ih =>
      show (serialStoreRun calls _ rest).1.messages = _
      rw [ih]
      simp [AddMessage, List.append_assoc]

/-- C8: with every sink call's whole open-write-close (resp.
append-and-rewrite) body inside the mutex, any interleaved execution of N
concurrent calls that runs to completion produces the same result as some
serial order of the N calls: the Line Sink's file is exactly the
concatenation of the N complete lines in some permutation order (N
newlines, no interleaved or torn lines), and the JSON Store Sink's
store-and-file state is exactly a sequential run of the N `AddMessage`
bodies, holding exactly N records. -/
theorem lock_serializes_sinks :
    (∀ (N : Nat) (lines : Fin N → List Char) (s : LockState N (List Char)),
      Relation.ReflTransGen (LockStep N (lineProg lines)) (initLock N []) s →
      (∀ i, s.phase i = .finished) →
      ∃ order : List (Fin N), order.Perm (List.finRange N) ∧
        s.data = (order.map lines).flatten ∧
        ((∀ i, (lines i).count '\n' = 1) → s.data.count '\n' = N)) ∧
    (∀ (N : Nat) (calls : Fin N → CallInput) (path : String)
        (file : StoreFile) (s : LockState N (MessageStore × StoreFile)),
      Relation.ReflTransGen (LockStep N (storeProg calls))
        (initLock N (NewMessageStore path, file)) s →
      (∀ i, s.phase i = .finished) →
      ∃ order : List (Fin N), order.Perm (List.finRange N) ∧
        s.data = serialStoreRun calls (NewMessageStore path, file) order ∧
        s.data.1.messages.length = N) := by
  constructor
  · intro N lines s hreach hfin
    obtain ⟨order, hperm, hdata⟩ := lock_final hreach hfin
    rw [runThreads_lineProg, List.nil_append] at hdata
    refine ⟨order, hperm, hdata, ?_⟩
    intro hcount
    rw [hdata, List.count_flatten, List.map_map]
    have h1 : order.map ((List.count '\n') ∘ lines) = order.map (fun _ => 1) :=
      List.map_congr_left (fun i _ => hcount i)
    rw [h1, sum_map_one, hperm.length_eq, List.length_finRange]
  · intro N calls path file s hreach hfin
    obtain ⟨order, hperm, hdata⟩ := lock_final hreach hfin
    rw [runThreads_storeProg] at hdata
    refine ⟨order, hperm, hdata, ?_⟩
    rw [hdata, serialStoreRun_messages]
    have := hperm.length_eq
    simp only [List.length_finRange] at this
    simp [NewMessageStore, this]

/-- Witness for C8: one full critical section of each sink, run through
the interleaving model step by step. -/
theorem lock_serializes_sinks_witness :
    (∃ order : List (Fin 1), order.Perm (List.finRange 1) ∧
      demoLineFinal.data = (order.map demoLines).flatten ∧
      demoLineFinal.data.count '\n' = 1) ∧
    (∃ order : List (Fin 1), order.Perm (List.finRange 1) ∧
      demoStoreFinal.data
        = serialStoreRun demoCalls (NewMessageStore "out", .initial) order ∧
      demoStoreFinal.data.1.messages.length = 1) := by
  constructor
  · have hreach : Relation.ReflTransGen (LockStep 1 (lineProg demoLines))
        (initLock 1 []) demoLineFinal := by
      refine Relation.ReflTransGen.head (LockStep.acquire _ 0 rfl rfl) ?_
      refine Relation.ReflTransGen.head
        (LockStep.effect _ 0 rfl rfl (by decide)) ?_
      refine Relation.ReflTransGen.head
        (LockStep.effect _ 0 rfl rfl (by decide)) ?_
      refine Relation.ReflTransGen.head (LockStep.release _ 0 rfl rfl rfl) ?_
      exact Relation.ReflTransGen.refl
    obtain ⟨ord, h1, h2, h3⟩ :=
      lock_serializes_sinks.1 1 demoLines demoLineFinal hreach (by decide)
    exact ⟨ord, h1, h2, h3 (fun _ => rfl)⟩
  · have hreach : Relation.ReflTransGen (LockStep 1 (storeProg demoCalls))
        (initLock 1 (NewMessageStore "out", .initial)) demoStoreFinal := by
      refine Relation.ReflTransGen.head (LockStep.acquire _ 0 rfl rfl) ?_
      refine Relation.ReflTransGen.head
        (LockStep.effect _ 0 rfl rfl (by decide)) ?_
      refine Relation.ReflTransGen.head
        (LockStep.effect _ 0 rfl rfl (by decide)) ?_
      refine Relation.ReflTransGen.head (LockStep.release _ 0 rfl rfl rfl) ?_
      exact Relation.ReflTransGen.refl
    exact lock_serializes_sinks.2 1 demoCalls "out" .initial demoStoreFinal
      hreach (by decide)

end MqttTrace
